import Mathlib

/-!
Shallow embedding of `src/slice-reader.ts` (ddebarros/functions-deployer).

Paths are modelled as lists of path segments (`path.join` is list append,
`path.dirname` is `List.dropLast`).  The local filesystem is modelled as an
explicit state: an association list from paths to file records plus a list of
existing directories.  The asynchronous collaborators (`waitForActivation`,
`axios.get`, `adm-zip`) are inputs to the orchestrator functions, mirroring
exactly how their results are consumed by the source.
-/

namespace SliceReader

/-- A path, as the list of its segments. -/
abbrev Path := List String

/-- A file on disk: raw content bytes plus the mode passed to `fs.writeFileSync`. -/
structure File where
  data : List Nat
  mode : Int
deriving Repr, DecidableEq

/-- The modelled filesystem: files (path ↦ record) and the set of directories. -/
structure FS where
  files : List (Path × File)
  dirs : List Path
deriving Repr, DecidableEq

instance : Inhabited File := ⟨⟨[], 0⟩⟩

instance : Inhabited FS := ⟨⟨[], []⟩⟩

/-- Look up the file stored at path `p`. -/
def lookupFile (fs : FS) (p : Path) : Option File :=
  List.lookup p fs.files

/-- `fs.existsSync`: a path exists if it is a directory or a file. -/
def existsSync (fs : FS) (p : Path) : Bool :=
  decide (p ∈ fs.dirs) || decide (p ∈ fs.files.map Prod.fst)

/-- `rimraf.sync p`: recursively delete `p` and everything under it. -/
def rimrafSync (fs : FS) (p : Path) : FS :=
  { files := fs.files.filter (fun kv => !(decide (p <+: kv.1))),
    dirs := fs.dirs.filter (fun d => !(decide (p <+: d))) }

/-- The nonempty prefixes of a path: the chain of directories that
`fs.mkdirSync(p, { recursive: true })` brings into existence. -/
def initsNE : Path → List Path
  | [] => []
  | s :: rest => [s] :: (initsNE rest).map (fun q => s :: q)

/-- `fs.mkdirSync(p, { recursive: true })`. -/
def mkdirRecursive (fs : FS) (p : Path) : FS :=
  { fs with dirs := initsNE p ++ fs.dirs }

/-- `fs.writeFileSync(p, data, { mode })`: create or replace the file at `p`. -/
def writeFileSync (fs : FS) (p : Path) (data : List Nat) (mode : Int) : FS :=
  { fs with files := (p, ⟨data, mode⟩) :: fs.files.filter (fun kv => !(kv.1 == p)) }

/-- Well-formedness of a filesystem state: a file can only exist below
directories that exist (true of every real filesystem state).
`initsNE p` enumerates the nonempty prefixes of `p`. -/
def FS.wf (fs : FS) : Prop :=
  ∀ p ∈ fs.files.map Prod.fst, ∀ q ∈ initsNE p, q ≠ p → q ∈ fs.dirs

instance (fs : FS) : Decidable fs.wf := by
  unfold FS.wf
  infer_instance

/-! ### JavaScript numeric helpers -/

/-- JavaScript `ToUint32`: reduce an integer into `[0, 2^32)`. -/
def toUint32 (a : Int) : Int := a % (2 ^ 32 : Int)

/-- JavaScript `a >>> 16` (unsigned, zero-fill right shift by 16):
`ToUint32` followed by division by `2^16`.  This is `entry.attr >>> 16`
in `fetchSlice`. -/
def jsShrU16 (a : Int) : Int := toUint32 a / (2 ^ 16 : Int)

/-- The maximal leading run of decimal digits of a character list. -/
def digitsOf : List Char → List Char
  | [] => []
  | c :: cs => if c.isDigit then c :: digitsOf cs else []

/-- Numeric value of a list of decimal digits. -/
def digitsVal (ds : List Char) : Nat :=
  ds.foldl (fun a c => a * 10 + (c.toNat - 48)) 0

/-- JavaScript `parseInt` (radix 10 fragment): skip leading whitespace, read an
optional sign and then a maximal run of decimal digits; `none` models `NaN`. -/
def jsParseInt (s : String) : Option Int :=
  let cs := s.data.dropWhile (fun c => c = ' ' || c = '\t' || c = '\n' || c = '\r')
  match cs with
  | '-' :: rest =>
      let ds := digitsOf rest
      if ds.isEmpty then none else some (-(digitsVal ds : Int))
  | '+' :: rest =>
      let ds := digitsOf rest
      if ds.isEmpty then none else some (digitsVal ds : Int)
  | _ =>
      let ds := digitsOf cs
      if ds.isEmpty then none else some (digitsVal ds : Int)

/-- `MAX_SLICE_UPLOAD_SIZE = parseInt(process.env.MAX_SLICE_UPLOAD_SIZE) || 64*1024*1024`.
The argument is the environment variable's value (`none` when unset); the
JavaScript `||` makes both `NaN` and `0` fall back to the default. -/
def MAX_SLICE_UPLOAD_SIZE (env : Option String) : Int :=
  match env.bind jsParseInt with
  | none => 64 * 1024 * 1024
  | some v => if v = 0 then 64 * 1024 * 1024 else v

/-! ### OpenWhisk activations -/

/-- The `result` payload of an activation response (`activation.response.result`);
the `url` field may be absent. -/
structure ActivationResult where
  url : Option String
deriving Repr, DecidableEq

/-- An activation response: `success` flag and optional `result` payload,
each possibly absent (JavaScript `undefined`). -/
structure ActivationResponse where
  success : Option Bool
  result : Option ActivationResult
deriving Repr, DecidableEq

/-- An activation record as returned by `waitForActivation`. -/
structure Activation where
  response : Option ActivationResponse
deriving Repr, DecidableEq

/-- JavaScript truthiness of an optional boolean (`undefined` is falsy). -/
def truthyB : Option Bool → Bool
  | none => false
  | some b => b

/-- JavaScript truthiness of an optional string (`undefined` and `""` are falsy). -/
def truthyS : Option String → Bool
  | none => false
  | some s => !(s == "")

/-- `activation.response?.result?.url` (optional chaining). -/
def downloadUrlOf (a : Activation) : Option String :=
  (a.response.bind ActivationResponse.result).bind ActivationResult.url

/-- Negation of the guard at line 94 of the source:
`!activationResponse || !activationResponse?.success || !downloadUrl`. -/
def usableActivation (a : Activation) : Bool :=
  a.response.isSome
    && truthyB (a.response.bind ActivationResponse.success)
    && truthyS (downloadUrlOf a)

/-! ### Streams and the bounded download -/

/-- Events the destination writable stream may emit while the response body is
piped into it. -/
inductive StreamEvent where
  | close
  | finish
  | err (msg : String)
deriving Repr, DecidableEq

/-- Is this one of the two events `pipe` listens for? -/
def terminalEvent : StreamEvent → Bool
  | .close => true
  | .finish => true
  | .err _ => false

/-- A download stream: the events the destination emits, and the bytes
accumulated in the in-memory sink. -/
structure DownloadStream where
  events : List StreamEvent
  bytes : List Nat
deriving Repr, DecidableEq

/-- `pipe(input, output)` from the source resolves only when the output stream
emits `close` or `finish`; it installs no error handler.  `none` models a
promise that never resolves. -/
def pipeResult (s : DownloadStream) : Option (List Nat) :=
  if s.events.any terminalEvent then some s.bytes else none

/-! ### Zip entries and the cache area -/

/-- One `adm-zip` entry: relative path (as segments), directory flag, the raw
32-bit external attribute word (as the JavaScript number `entry.attr`), and
content bytes. -/
structure ZipEntry where
  entryName : Path
  isDirectory : Bool
  attr : Int
  data : List Nat
deriving Repr, DecidableEq

/-- `cacheArea() = path.join(TEMP, 'slices')`; the platform temp dir is a
parameter. -/
def cacheArea (tempDir : String) : Path := [tempDir, "slices"]

/-- Outcome of an asynchronous orchestrator call: resolved value, rejected
with an error message, or a promise that never settles. -/
inductive Outcome (α : Type) where
  | ok (a : α)
  | error (msg : String)
  | pending
deriving Repr, DecidableEq

/-- A single-quote character, for building the user-visible error messages. -/
def sq : String := "\x27"

/-- `Timed out fetching assets url for '<sliceName>'` (line 89). -/
def timedOutMsg (sliceName : String) : String :=
  "Timed out fetching assets url for " ++ sq ++ sliceName ++ sq

/-- `Failed to fetch assets url for '<sliceName>'` (line 95). -/
def failedMsg (sliceName : String) : String :=
  "Failed to fetch assets url for " ++ sq ++ sliceName ++ sq

/-! ### Extraction (lines 114–125) -/

/-- The body of the extraction loop for one (non-directory) entry:
join, ensure the parent directory, write with mode `attr >>> 16`. -/
def extractEntry (cache : Path) (fs : FS) (e : ZipEntry) : FS :=
  let target := cache ++ e.entryName
  let parent := target.dropLast
  let fs1 := if existsSync fs parent then fs else mkdirRecursive fs parent
  writeFileSync fs1 target e.data (jsShrU16 e.attr)

/-- The extraction loop: all entries with `!entry.isDirectory`, in order. -/
def extractAll (cache : Path) (entries : List ZipEntry) (fs : FS) : FS :=
  (entries.filter (fun e => !e.isDirectory)).foldl (extractEntry cache) fs

/-- The file records a run of the extraction loop writes for a list of
entries, in loop order. -/
def writesOf (cache : Path) (ws : List ZipEntry) : List (Path × File) :=
  ws.map (fun e => (cache ++ e.entryName, ⟨e.data, jsShrU16 e.attr⟩))

/-- Specification-side description of an archive's extracted contents: the
files a buffer's non-directory entries denote, keyed by target path, with the
recorded bytes and the mode `attr >>> 16`. -/
def archiveFiles (cache : Path) (entries : List ZipEntry) : List (Path × File) :=
  writesOf cache (entries.filter (fun e => !e.isDirectory))

/-! ### The fetch orchestrator (lines 63–127) -/

/-- Lines 98–126 of `fetchSlice`: issue the GET (`axiosGet url`, rejection
propagates unmodified), reset and recreate the cache directory, await `pipe`
(which may never settle), unzip the buffer and run the extraction loop. -/
def downloadAndExtract (tempDir sliceName url : String)
    (axiosGet : String → Except String DownloadStream)
    (unzip : List Nat → List ZipEntry) (fs0 : FS) : FS × Outcome Path :=
  match axiosGet url with
  | .error e => (fs0, .error e)
  | .ok stream =>
    let cache := cacheArea tempDir ++ [sliceName]
    let fs1 := if existsSync fs0 cache then rimrafSync fs0 cache else fs0
    let fs2 := mkdirRecursive fs1 cache
    match pipeResult stream with
    | none => (fs2, .pending)
    | some data =>
      let entries := unzip data
      (extractAll cache entries fs2, .ok cache)

/-- `fetchSlice(sliceName)`.  `wait` models `waitForActivation` applied to the
submitted activation id and the timeout in seconds; the source passes `60`.
`axiosGet` models `axios.get` with a stream response; `unzip` models
`new Zip(data).getEntries()`.  The filesystem is threaded explicitly. -/
def fetchSlice (tempDir sliceName : String) (wait : Nat → Option Activation)
    (axiosGet : String → Except String DownloadStream)
    (unzip : List Nat → List ZipEntry) (fs0 : FS) : FS × Outcome Path :=
  match wait 60 with
  | none => (fs0, .error (timedOutMsg sliceName))
  | some activation =>
    if usableActivation activation then
      downloadAndExtract tempDir sliceName ((downloadUrlOf activation).getD "")
        axiosGet unzip fs0
    else
      (fs0, .error (failedMsg sliceName))

/-! ### The delete orchestrator (lines 130–154) -/

/-- `path.relative(base, p)` for already-absolute, normalized segment lists:
strip the common leading segments, then climb with `..` and descend. -/
def pathRelative : Path → Path → Path
  | [], ts => ts
  | f :: fs, [] => (f :: fs).map (fun _ => "..")
  | f :: fs, t :: ts =>
    if f = t then pathRelative fs ts
    else ((f :: fs).map (fun _ => "..")) ++ (t :: ts)

/-- Join path segments back into a string with `/` separators. -/
def joinSegs : Path → String
  | [] => ""
  | [s] => s
  | s :: rest => s ++ "/" ++ joinSegs rest

/-- The remote invocation issued by `deleteSlice`: the action path, the
`name` parameter, and the wait budget passed to `waitForActivation`. -/
structure ActionInvocation where
  actionPath : String
  paramName : String
  waitSeconds : Nat
deriving Repr, DecidableEq

/-- `deleteSlice(project)`: derive the slice name from `project.filePath`
relative to the cache area, invoke the remote delete action, wait up to 60
seconds and discard the result.  No filesystem operation is performed; the
function always resolves. -/
def deleteSlice (builderNamespace tempDir : String) (filePath : Path)
    (wait : Nat → Option Activation) (fs0 : FS) :
    FS × Outcome Unit × ActionInvocation :=
  let sliceName := joinSegs (pathRelative (cacheArea tempDir) filePath)
  let invocation : ActionInvocation :=
    { actionPath := "/" ++ builderNamespace ++ "/builder/deleteBuildAssets",
      paramName := sliceName,
      waitSeconds := 60 }
  let _ := wait invocation.waitSeconds
  (fs0, .ok (), invocation)

/-! ### Concrete fixtures for evaluating the model -/

/-- A usable activation: response present, successful, non-empty URL. -/
def sampleActivation : Activation :=
  ⟨some ⟨some true, some ⟨some "https://assets.example/slice.zip"⟩⟩⟩

/-- A regular file entry `index.js` whose 32-bit attribute is `0o100644 << 16`
read as a signed 32-bit number (sign bit set). -/
def entryIndexJs : ZipEntry := ⟨["index.js"], false, -2119958528, [7]⟩

/-- A filesystem already holding a stale file from an earlier fetch of
slice `s`, below the standard cache chain. -/
def fsWithOld : FS :=
  ⟨[(["/tmp", "slices", "s", "old.js"], ⟨[9], 6⟩)],
   [["/tmp"], ["/tmp", "slices"], ["/tmp", "slices", "s"]]⟩

/-! ### Lemmas about the association-list filesystem -/

theorem lookup_cons (q k : Path) (v : File) (l : List (Path × File)) :
    List.lookup q ((k, v) :: l) = if q = k then some v else List.lookup q l := by
  cases hqk : q == k <;> simp [List.lookup, hqk] <;> simp_all

theorem lookup_filter_ne (q p : Path) (l : List (Path × File)) :
    List.lookup q (l.filter (fun kv => !(kv.1 == p)))
      = if q = p then none else List.lookup q l := by
  induction l with
  | nil => simp
  | cons kv l ih =>
    obtain ⟨k, v⟩ := kv
    rw [List.filter_cons]
    by_cases hkp : k = p
    · subst hkp
      have hc : (!(k == k)) = false := by simp
      rw [hc]
      simp only [Bool.false_eq_true, if_false, ih, lookup_cons]
      by_cases hq : q = k <;> simp [hq]
    · have hc : (!(k == p)) = true := by simp [hkp]
      rw [hc]
      simp only [if_true, lookup_cons, ih]
      by_cases hq1 : q = p <;> by_cases hq2 : q = k <;> simp_all

theorem lookup_append (q : Path) (l1 l2 : List (Path × File)) :
    List.lookup q (l1 ++ l2)
      = Option.or (List.lookup q l1) (List.lookup q l2) := by
  induction l1 with
  | nil => simp [Option.or]
  | cons kv l ih =>
    obtain ⟨k, v⟩ := kv
    by_cases h : q = k <;> simp [lookup_cons, h, ih, Option.or]

theorem lookup_some_mem (q : Path) (l : List (Path × File)) (f : File)
    (h : List.lookup q l = some f) : q ∈ l.map Prod.fst := by
  induction l with
  | nil => simp [List.lookup] at h
  | cons kv l ih =>
    obtain ⟨k, v⟩ := kv
    rw [lookup_cons] at h
    by_cases hq : q = k
    · simp [hq]
    · rw [if_neg hq] at h
      simpa using Or.inr (ih h)

theorem lookup_isSome_of_mem (q : Path) (l : List (Path × File))
    (h : q ∈ l.map Prod.fst) : ∃ f, List.lookup q l = some f := by
  induction l with
  | nil => simp at h
  | cons kv l ih =>
    obtain ⟨k, v⟩ := kv
    by_cases hq : q = k
    · exact ⟨v, by simp [lookup_cons, hq]⟩
    · simp only [List.map_cons, List.mem_cons] at h
      rcases h with h | h
      · exact absurd h hq
      · obtain ⟨f, hf⟩ := ih h
        exact ⟨f, by simp [lookup_cons, hq, hf]⟩

theorem lookup_none_of_not_mem (q : Path) (l : List (Path × File))
    (h : q ∉ l.map Prod.fst) : List.lookup q l = none := by
  induction l with
  | nil => rfl
  | cons kv l ih =>
    obtain ⟨k, v⟩ := kv
    simp only [List.map_cons, List.mem_cons, not_or] at h
    rw [lookup_cons, if_neg h.1]
    exact ih h.2

theorem lookup_of_nodup_mem (l : List (Path × File)) (k : Path) (v : File)
    (hn : (l.map Prod.fst).Nodup) (hm : (k, v) ∈ l) :
    List.lookup k l = some v := by
  induction l with
  | nil => simp at hm
  | cons kv l ih =>
    obtain ⟨k1, v1⟩ := kv
    rw [lookup_cons]
    simp only [List.map_cons, List.nodup_cons] at hn
    rcases List.mem_cons.mp hm with h | h
    · simp only [Prod.mk.injEq] at h
      obtain ⟨rfl, rfl⟩ := h
      simp
    · have hk : k ≠ k1 := by
        intro hkk
        subst hkk
        exact hn.1 (List.mem_map_of_mem Prod.fst h)
      rw [if_neg hk]
      exact ih hn.2 h

theorem lookupFile_writeFileSync (fs : FS) (p q : Path) (d : List Nat) (m : Int) :
    lookupFile (writeFileSync fs p d m) q
      = if q = p then some ⟨d, m⟩ else lookupFile fs q := by
  simp only [lookupFile, writeFileSync, lookup_cons, lookup_filter_ne]
  by_cases h : q = p <;> simp [h]

theorem lookupFile_mkdirRecursive (fs : FS) (p q : Path) :
    lookupFile (mkdirRecursive fs p) q = lookupFile fs q := rfl

theorem lookupFile_extractEntry (cache : Path) (fs : FS) (e : ZipEntry) (q : Path) :
    lookupFile (extractEntry cache fs e) q
      = if q = cache ++ e.entryName then some ⟨e.data, jsShrU16 e.attr⟩
        else lookupFile fs q := by
  unfold extractEntry
  by_cases h : existsSync fs ((cache ++ e.entryName).dropLast) <;>
    simp [h, lookupFile_writeFileSync, lookupFile_mkdirRecursive]

theorem writesOf_cons (cache : Path) (w : ZipEntry) (ws : List ZipEntry) :
    writesOf cache (w :: ws)
      = (cache ++ w.entryName, ⟨w.data, jsShrU16 w.attr⟩) :: writesOf cache ws := rfl

theorem foldl_extract_lookup (cache : Path) (ws : List ZipEntry) (fs : FS) (q : Path) :
    lookupFile (ws.foldl (extractEntry cache) fs) q
      = Option.or (List.lookup q (writesOf cache ws).reverse) (lookupFile fs q) := by
  induction ws generalizing fs with
  | nil => simp [writesOf, Option.or]
  | cons w ws ih =>
    rw [List.foldl_cons, ih, writesOf_cons, List.reverse_cons, lookup_append]
    rw [lookupFile_extractEntry]
    cases hl : List.lookup q (writesOf cache ws).reverse <;>
      by_cases hq : q = cache ++ w.entryName <;>
        simp [Option.or, hl, hq, lookup_cons]

/-! ### Lemmas about directories -/

theorem mem_initsNE (p : Path) : ∀ q : Path, q ∈ initsNE p ↔ q ≠ [] ∧ q <+: p := by
  induction p with
  | nil =>
    intro q
    simp only [initsNE, List.not_mem_nil, false_iff, not_and]
    intro hne hpre
    exact hne (List.prefix_nil.mp hpre)
  | cons s rest ih =>
    intro q
    simp only [initsNE, List.mem_cons, List.mem_map]
    constructor
    · rintro (rfl | ⟨a, ha, rfl⟩)
      · exact ⟨by simp, ⟨rest, rfl⟩⟩
      · obtain ⟨hne, t, ht⟩ := (ih a).mp ha
        exact ⟨by simp, ⟨t, by simp [ht]⟩⟩
    · rintro ⟨hne, t, ht⟩
      cases q with
      | nil => exact absurd rfl hne
      | cons h q1 =>
        have hht : h :: (q1 ++ t) = s :: rest := ht
        injection hht with h1 h2
        subst h1
        cases q1 with
        | nil => exact Or.inl rfl
        | cons x xs =>
          exact Or.inr ⟨x :: xs, (ih (x :: xs)).mpr ⟨by simp, ⟨t, h2⟩⟩, rfl⟩

theorem dirs_writeFileSync (fs : FS) (p : Path) (d : List Nat) (m : Int) :
    (writeFileSync fs p d m).dirs = fs.dirs := rfl

theorem dirs_mkdirRecursive (fs : FS) (p q : Path) :
    q ∈ (mkdirRecursive fs p).dirs ↔ q ∈ initsNE p ∨ q ∈ fs.dirs := by
  simp [mkdirRecursive]

theorem dirs_extractEntry (cache : Path) (fs : FS) (e : ZipEntry) :
    (extractEntry cache fs e).dirs
      = if existsSync fs ((cache ++ e.entryName).dropLast) then fs.dirs
        else initsNE ((cache ++ e.entryName).dropLast) ++ fs.dirs := by
  unfold extractEntry
  by_cases hex : existsSync fs ((cache ++ e.entryName).dropLast) <;>
    simp [hex, writeFileSync, mkdirRecursive]

theorem dirs_mono_extractEntry (cache : Path) (fs : FS) (e : ZipEntry) (d : Path)
    (h : d ∈ fs.dirs) : d ∈ (extractEntry cache fs e).dirs := by
  unfold extractEntry
  by_cases hex : existsSync fs ((cache ++ e.entryName).dropLast) <;>
    simp [hex, writeFileSync, mkdirRecursive, h]

theorem dirs_mono_foldl (cache : Path) (ws : List ZipEntry) :
    ∀ (fs : FS) (d : Path), d ∈ fs.dirs → d ∈ (ws.foldl (extractEntry cache) fs).dirs := by
  induction ws with
  | nil => intro fs d h; exact h
  | cons w ws ih =>
    intro fs d h
    exact ih (extractEntry cache fs w) d (dirs_mono_extractEntry cache fs w d h)

/-! ### The reset step (lines 102–107) -/

theorem reset_lookup_none (fs0 : FS) (cache : Path) (hwf : fs0.wf) (hc : cache ≠ [])
    (q : Path) (hq : cache <+: q) :
    lookupFile (mkdirRecursive
      (if existsSync fs0 cache then rimrafSync fs0 cache else fs0) cache) q = none := by
  rw [lookupFile_mkdirRecursive]
  by_cases he : existsSync fs0 cache
  · rw [if_pos he]
    apply lookup_none_of_not_mem
    intro hmem
    rw [List.mem_map] at hmem
    obtain ⟨kv, hkv, rfl⟩ := hmem
    have hfil := List.of_mem_filter hkv
    simp only [Bool.not_eq_true', decide_eq_false_iff_not] at hfil
    exact hfil hq
  · rw [if_neg he]
    apply lookup_none_of_not_mem
    intro hmem
    simp only [existsSync, Bool.or_eq_true, decide_eq_true_eq, not_or] at he
    by_cases hqc : q = cache
    · exact he.2 (hqc ▸ hmem)
    · have : cache ∈ fs0.dirs :=
        hwf q hmem cache ((mem_initsNE q cache).mpr ⟨hc, hq⟩) (fun h => hqc h.symm)
      exact he.1 this

/-! ### The success path of `fetchSlice` -/

theorem fetchSlice_success_eq (tempDir sliceName : String)
    (wait : Nat → Option Activation) (axiosGet : String → Except String DownloadStream)
    (unzip : List Nat → List ZipEntry) (fs0 : FS) (a : Activation)
    (stream : DownloadStream) (data : List Nat)
    (hw : wait 60 = some a) (hu : usableActivation a = true)
    (hg : axiosGet ((downloadUrlOf a).getD "") = Except.ok stream)
    (hp : pipeResult stream = some data) :
    fetchSlice tempDir sliceName wait axiosGet unzip fs0
      = (extractAll (cacheArea tempDir ++ [sliceName]) (unzip data)
           (mkdirRecursive
             (if existsSync fs0 (cacheArea tempDir ++ [sliceName])
              then rimrafSync fs0 (cacheArea tempDir ++ [sliceName]) else fs0)
             (cacheArea tempDir ++ [sliceName])),
         Outcome.ok (cacheArea tempDir ++ [sliceName])) := by
  rw [fetchSlice, hw]
  simp only [hu, if_true]
  rw [downloadAndExtract, hg]
  simp only [hp]

theorem truthyB_iff (x : Option Bool) : truthyB x = true ↔ x = some true := by
  cases x <;> simp [truthyB]

theorem truthyS_iff (x : Option String) :
    truthyS x = true ↔ ∃ u, x = some u ∧ u ≠ "" := by
  cases x <;> simp [truthyS]

theorem usableActivation_iff (a : Activation) :
    usableActivation a = true
      ↔ a.response.isSome = true
        ∧ a.response.bind ActivationResponse.success = some true
        ∧ ∃ u, downloadUrlOf a = some u ∧ u ≠ "" := by
  simp [usableActivation, Bool.and_eq_true, truthyB_iff, truthyS_iff, and_assoc]

/-! ### Parent directories during extraction -/

theorem extract_parents_aux (cache : Path) (names : List Path)
    (hcd : cache.dropLast ≠ [])
    (hpf : ∀ n1 ∈ names, ∀ n2 ∈ names, n1 <+: n2 → n1 = n2) :
    ∀ (ws : List ZipEntry) (fs : FS),
      (∀ e ∈ ws, e.entryName ∈ names) →
      (∀ q : Path, cache <+: q → lookupFile fs q ≠ none → ∃ n ∈ names, q = cache ++ n) →
      (∀ p : Path, p ≠ [] → p <+: cache → p ∈ fs.dirs) →
      ∀ e ∈ ws, (cache ++ e.entryName).dropLast ∈ (ws.foldl (extractEntry cache) fs).dirs := by
  have hcne : cache ≠ [] := by
    intro h
    exact hcd (by simp [h])
  intro ws
  induction ws with
  | nil => intro fs _ _ _ e he; simp at he
  | cons w ws ih =>
    intro fs hnames hkeys hdirs e he
    rw [List.foldl_cons]
    have hkeys' : ∀ q : Path, cache <+: q →
        lookupFile (extractEntry cache fs w) q ≠ none → ∃ n ∈ names, q = cache ++ n := by
      intro q hq hsome
      rw [lookupFile_extractEntry] at hsome
      by_cases hqt : q = cache ++ w.entryName
      · exact ⟨w.entryName, hnames w (List.mem_cons_self w ws), hqt⟩
      · rw [if_neg hqt] at hsome
        exact hkeys q hq hsome
    have hdirs' : ∀ p : Path, p ≠ [] → p <+: cache →
        p ∈ (extractEntry cache fs w).dirs := by
      intro p hne hp
      exact dirs_mono_extractEntry cache fs w p (hdirs p hne hp)
    rcases List.mem_cons.mp he with rfl | he2
    · -- the entry processed at this step: its parent is a directory afterwards
      apply dirs_mono_foldl
      rcases List.eq_nil_or_concat e.entryName with hnil | ⟨en1, x, hen⟩
      · -- empty entry name: the parent is `cache.dropLast`, created with the cache
        rw [hnil, List.append_nil]
        exact hdirs' cache.dropLast hcd (List.dropLast_prefix cache)
      · -- nonempty entry name: the parent is `cache ++ e.entryName.dropLast`
        have hne : e.entryName ≠ [] := by
          rw [hen]; simp
        have hpar : (cache ++ e.entryName).dropLast = cache ++ e.entryName.dropLast :=
          List.dropLast_append_of_ne_nil cache hne
        rw [hpar, dirs_extractEntry, ← hpar]
        by_cases hex : existsSync fs ((cache ++ e.entryName).dropLast)
        · rw [if_pos hex]
          -- a file cannot sit at the parent path, so `existsSync` saw a directory
          simp only [existsSync, Bool.or_eq_true, decide_eq_true_eq] at hex
          rcases hex with hex | hex
          · exact hpar ▸ hex
          · exfalso
            obtain ⟨f, hf⟩ := lookup_isSome_of_mem _ _ hex
            have hqpre : cache <+: (cache ++ e.entryName).dropLast := by
              rw [hpar]; exact ⟨e.entryName.dropLast, rfl⟩
            obtain ⟨n, hn, hqeq⟩ := hkeys _ hqpre (by rw [lookupFile]; rw [hf]; simp)
            rw [hpar] at hqeq
            have hneq : n = e.entryName.dropLast := List.append_cancel_left hqeq.symm
            subst hneq
            have hmem : e.entryName ∈ names := hnames e (List.mem_cons_self e ws)
            have heq := hpf _ hn _ hmem (List.dropLast_prefix e.entryName)
            have hlen : e.entryName.dropLast.length < e.entryName.length := by
              have h1 : e.entryName.dropLast.length = e.entryName.length - 1 :=
                List.length_dropLast e.entryName
              have h2 : 0 < e.entryName.length := List.length_pos.mpr hne
              omega
            rw [heq] at hlen
            exact lt_irrefl _ hlen
        · rw [if_neg hex]
          rw [List.mem_append]
          left
          rw [mem_initsNE]
          refine ⟨?_, by rfl⟩
          rw [hpar]
          intro habs
          exact hcne (List.append_eq_nil.mp habs).1
    · exact ih (extractEntry cache fs w) (fun e2 h2 => hnames e2 (List.mem_cons_of_mem w h2))
        hkeys' hdirs' e he2

/-! ### Claim theorems -/

/-- C4: if the remote URL-resolution activation does not produce a result
within the 60-second wait budget (`waitForActivation` returns no activation),
`fetchSlice(sliceName)` fails with exactly the error message
`Timed out fetching assets url for '<sliceName>'`. -/
theorem claim_C4_timeout (tempDir sliceName : String) (wait : Nat → Option Activation)
    (axiosGet : String → Except String DownloadStream)
    (unzip : List Nat → List ZipEntry) (fs0 : FS) (h : wait 60 = none) :
    fetchSlice tempDir sliceName wait axiosGet unzip fs0
      = (fs0, Outcome.error
          ("Timed out fetching assets url for " ++ sq ++ sliceName ++ sq)) := by
  simp [fetchSlice, h, timedOutMsg]

/-- Witness for C4: a run in which the wait yields nothing. -/
theorem claim_C4_timeout_witness :
    fetchSlice "/tmp" "myslice" (fun _ => none) (fun _ => Except.error "down")
        (fun _ => []) ⟨[], []⟩
      = (⟨[], []⟩, Outcome.error
          ("Timed out fetching assets url for " ++ sq ++ "myslice" ++ sq)) :=
  claim_C4_timeout "/tmp" "myslice" (fun _ => none) (fun _ => Except.error "down")
    (fun _ => []) ⟨[], []⟩ rfl

/-- C2: a completed activation is usable only if its response is present,
reports success, and carries a non-empty download URL; an activation missing
the response, the success flag, or the URL makes `fetchSlice` fail with
`Failed to fetch assets url for '<sliceName>'` without downloading or
extracting (the filesystem is returned untouched). -/
theorem claim_C2_unusable (tempDir sliceName : String) (wait : Nat → Option Activation)
    (axiosGet : String → Except String DownloadStream)
    (unzip : List Nat → List ZipEntry) (fs0 : FS) (a : Activation)
    (hw : wait 60 = some a)
    (h : a.response = none
         ∨ a.response.bind ActivationResponse.success ≠ some true
         ∨ downloadUrlOf a = none ∨ downloadUrlOf a = some "") :
    fetchSlice tempDir sliceName wait axiosGet unzip fs0
      = (fs0, Outcome.error
          ("Failed to fetch assets url for " ++ sq ++ sliceName ++ sq))
    ∧ ∀ b : Activation, usableActivation b = true →
        b.response.isSome = true
        ∧ b.response.bind ActivationResponse.success = some true
        ∧ ∃ u, downloadUrlOf b = some u ∧ u ≠ "" := by
  constructor
  · have hu : usableActivation a = false := by
      rw [Bool.eq_false_iff]
      intro habs
      obtain ⟨h1, h2, u, h3, h4⟩ := (usableActivation_iff a).mp habs
      rcases h with h | h | h | h
      · rw [h] at h1; simp at h1
      · exact h h2
      · rw [h] at h3; simp at h3
      · rw [h] at h3
        injection h3 with h5
        exact h4 h5.symm
    simp [fetchSlice, hw, hu, failedMsg]
  · intro b hb
    exact (usableActivation_iff b).mp hb

/-- Witness for C2: an activation with no response field fails with the
expected message and leaves the filesystem untouched. -/
theorem claim_C2_unusable_witness :
    fetchSlice "/tmp" "s" (fun _ => some ⟨none⟩) (fun _ => Except.error "down")
        (fun _ => []) ⟨[], []⟩
      = (⟨[], []⟩, Outcome.error
          ("Failed to fetch assets url for " ++ sq ++ "s" ++ sq)) :=
  (claim_C2_unusable "/tmp" "s" (fun _ => some ⟨none⟩) (fun _ => Except.error "down")
    (fun _ => []) ⟨[], []⟩ ⟨none⟩ rfl (Or.inl rfl)).1

/-- C6: when `fetchSlice` fails because the activation timed out or its
result is unusable, the failure is raised before any download, cache reset
or extraction step: the filesystem state is returned entirely unchanged and
the outcome is an error. -/
theorem claim_C6_early_failure_frame (tempDir sliceName : String)
    (wait : Nat → Option Activation) (axiosGet : String → Except String DownloadStream)
    (unzip : List Nat → List ZipEntry) (fs0 : FS)
    (h : wait 60 = none ∨ ∃ a, wait 60 = some a ∧ usableActivation a = false) :
    (fetchSlice tempDir sliceName wait axiosGet unzip fs0).1 = fs0
    ∧ ∃ msg, (fetchSlice tempDir sliceName wait axiosGet unzip fs0).2
        = Outcome.error msg := by
  rcases h with h | ⟨a, hw, hu⟩
  · simp [fetchSlice, h]
  · simp [fetchSlice, hw, hu]

/-- Witness for C6: with an unusable activation the filesystem comes back
unchanged. -/
theorem claim_C6_early_failure_frame_witness :
    (fetchSlice "/tmp" "s" (fun _ => some ⟨some ⟨some false, none⟩⟩)
        (fun _ => Except.error "down") (fun _ => []) fsWithOld).1 = fsWithOld :=
  (claim_C6_early_failure_frame "/tmp" "s" (fun _ => some ⟨some ⟨some false, none⟩⟩)
    (fun _ => Except.error "down") (fun _ => []) fsWithOld
    (Or.inr ⟨⟨some ⟨some false, none⟩⟩, rfl, rfl⟩)).1

/-- C7: `deleteSlice` derives the slice's logical name as the path of the
cached location relative to the cache root — the inverse of the cache path
construction — and invokes the remote delete action with that name; for a
location `<cacheRoot>/foo` the `name` parameter is exactly `"foo"`. -/
theorem claim_C7_delete_name (builderNamespace tempDir sliceName : String)
    (wait : Nat → Option Activation) (fs0 : FS) :
    (deleteSlice builderNamespace tempDir (cacheArea tempDir ++ [sliceName])
        wait fs0).2.2.paramName = sliceName
    ∧ ∀ fp : Path,
        (deleteSlice builderNamespace tempDir fp wait fs0).2.2.paramName
          = joinSegs (pathRelative (cacheArea tempDir) fp) := by
  constructor
  · simp [deleteSlice, cacheArea, pathRelative, joinSegs]
  · intro fp
    rfl

/-- C8: `deleteSlice` passes a 60-second budget to the activation wait,
never raises (it resolves for every wait outcome, including a timeout), and
performs no local filesystem mutation whatsoever. -/
theorem claim_C8_delete_silent (builderNamespace tempDir : String) (fp : Path)
    (wait : Nat → Option Activation) (fs0 : FS) :
    deleteSlice builderNamespace tempDir fp wait fs0
      = (fs0, Outcome.ok (),
         ⟨"/" ++ builderNamespace ++ "/builder/deleteBuildAssets",
          joinSegs (pathRelative (cacheArea tempDir) fp), 60⟩) := rfl

/-- C9: the maximum accepted download size is the numeric value of the
`MAX_SLICE_UPLOAD_SIZE` environment variable when it parses to a nonzero
number, and otherwise — unset, non-numeric, or `"0"` — it is exactly
64 MiB; an explicit `0` silently falls back to the default. -/
theorem claim_C9_max_size :
    MAX_SLICE_UPLOAD_SIZE none = 64 * 1024 * 1024
    ∧ (∀ s : String, jsParseInt s = none →
        MAX_SLICE_UPLOAD_SIZE (some s) = 64 * 1024 * 1024)
    ∧ MAX_SLICE_UPLOAD_SIZE (some "0") = 64 * 1024 * 1024
    ∧ (∀ (s : String) (v : Int), jsParseInt s = some v → v ≠ 0 →
        MAX_SLICE_UPLOAD_SIZE (some s) = v) := by
  refine ⟨rfl, ?_, by decide, ?_⟩
  · intro s h
    simp [MAX_SLICE_UPLOAD_SIZE, h]
  · intro s v h hv
    simp [MAX_SLICE_UPLOAD_SIZE, h, hv]

/-- Witness for C9: a configured nonzero value is taken verbatim. -/
theorem claim_C9_max_size_witness :
    MAX_SLICE_UPLOAD_SIZE (some "12345") = 12345 :=
  claim_C9_max_size.2.2.2 "12345" 12345 (by decide) (by decide)

/-- C10: the permission mode `fetchSlice` stores for an entry is
`attr >>> 16` with an unsigned 16-bit shift: it is always in `[0, 65536)`,
and an attribute with the sign bit set (a Unix-created entry, mode in the
upper 16 bits) yields the correct mode — e.g. attribute `0o100644 << 16`
read as the signed 32-bit number `-2119958528` yields mode `0o100644`. -/
theorem claim_C10_mode_unsigned :
    (∀ a : Int, 0 ≤ jsShrU16 a ∧ jsShrU16 a < 65536)
    ∧ jsShrU16 (-2119958528) = 33188
    ∧ (∀ (cache : Path) (fs : FS) (e : ZipEntry),
        lookupFile (extractEntry cache fs e) (cache ++ e.entryName)
          = some ⟨e.data, jsShrU16 e.attr⟩) := by
  refine ⟨?_, by decide, ?_⟩
  · intro a
    have hm0 : 0 ≤ a % 2 ^ 32 := Int.emod_nonneg a (by norm_num)
    have hm1 : a % 2 ^ 32 < 2 ^ 32 := Int.emod_lt_of_pos a (by norm_num)
    constructor
    · exact Int.ediv_nonneg hm0 (by norm_num)
    · rw [jsShrU16, toUint32]
      rw [Int.ediv_lt_iff_lt_mul (by norm_num)]
      calc a % 2 ^ 32 < 2 ^ 32 := hm1
        _ = 65536 * 2 ^ 16 := by norm_num
  · intro cache fs e
    rw [lookupFile_extractEntry]
    simp

/-- C5 counterexample: with a usable activation and a transport failure of
the GET request, `fetchSlice` fails with the propagated error
`connect ECONNREFUSED`, whose character sequence does not contain the slice
name `myslice` — so the failure does not name the slice; and a stream error
mid-transfer (no `close`/`finish` event) leaves the call pending rather than
failing with any error. -/
theorem claim_C5_counterexample :
    (fetchSlice "/tmp" "myslice" (fun _ => some sampleActivation)
        (fun _ => Except.error "connect ECONNREFUSED") (fun _ => []) ⟨[], []⟩
      = (⟨[], []⟩, Outcome.error "connect ECONNREFUSED"))
    ∧ ¬ ("myslice".data <:+: "connect ECONNREFUSED".data)
    ∧ (fetchSlice "/tmp" "myslice" (fun _ => some sampleActivation)
        (fun _ => Except.ok ⟨[StreamEvent.err "socket hang up"], []⟩)
        (fun _ => []) ⟨[], []⟩).2 = Outcome.pending := by
  refine ⟨rfl, by decide, rfl⟩

/-- C5 (amended): a transport-level error of the download request
(connection failure, non-2xx status) makes `fetchSlice` fail by propagating
the transport error unchanged — the error does not name the slice — with no
archive extraction attempted (the filesystem is returned untouched); a
stream error mid-transfer is never surfaced, because `pipe` resolves only on
a `close` or `finish` event and installs no error handler. -/
theorem claim_C5_amended_transport (tempDir sliceName : String)
    (wait : Nat → Option Activation) (axiosGet : String → Except String DownloadStream)
    (unzip : List Nat → List ZipEntry) (fs0 : FS) (a : Activation) (e : String)
    (hw : wait 60 = some a) (hu : usableActivation a = true)
    (hg : axiosGet ((downloadUrlOf a).getD "") = Except.error e) :
    fetchSlice tempDir sliceName wait axiosGet unzip fs0 = (fs0, Outcome.error e)
    ∧ ∀ (evs : List StreamEvent) (bytes : List Nat),
        evs.any terminalEvent = false → pipeResult ⟨evs, bytes⟩ = none := by
  constructor
  · rw [fetchSlice, hw]
    simp only [hu, if_true]
    rw [downloadAndExtract, hg]
  · intro evs bytes h
    simp [pipeResult, h]

/-- Witness for the amended C5: a concrete refused connection propagates
as-is with the filesystem untouched. -/
theorem claim_C5_amended_transport_witness :
    fetchSlice "/tmp" "myslice" (fun _ => some sampleActivation)
        (fun _ => Except.error "connect ECONNREFUSED") (fun _ => []) ⟨[], []⟩
      = (⟨[], []⟩, Outcome.error "connect ECONNREFUSED") :=
  (claim_C5_amended_transport "/tmp" "myslice" (fun _ => some sampleActivation)
    (fun _ => Except.error "connect ECONNREFUSED") (fun _ => []) ⟨[], []⟩
    sampleActivation "connect ECONNREFUSED" rfl rfl rfl).1

/-- C3: on a successful fetch the cache entry is reset before extraction —
any pre-existing directory is recursively deleted and recreated — so the
files found below the cache path afterwards are exactly the archive's
contents (the lookup result is a function of the downloaded archive alone,
independent of the initial filesystem): no residue survives a re-fetch. -/
theorem claim_C3_fresh_cache (tempDir sliceName : String)
    (wait : Nat → Option Activation) (axiosGet : String → Except String DownloadStream)
    (unzip : List Nat → List ZipEntry) (fs0 : FS) (a : Activation)
    (stream : DownloadStream) (data : List Nat)
    (hw : wait 60 = some a) (hu : usableActivation a = true)
    (hg : axiosGet ((downloadUrlOf a).getD "") = Except.ok stream)
    (hp : pipeResult stream = some data) (hwf : fs0.wf) :
    ∃ fs1 : FS,
      fetchSlice tempDir sliceName wait axiosGet unzip fs0
        = (fs1, Outcome.ok (cacheArea tempDir ++ [sliceName]))
      ∧ (cacheArea tempDir ++ [sliceName]) ∈ fs1.dirs
      ∧ ∀ q : Path, (cacheArea tempDir ++ [sliceName]) <+: q →
          lookupFile fs1 q
            = List.lookup q
                (archiveFiles (cacheArea tempDir ++ [sliceName]) (unzip data)).reverse := by
  rw [fetchSlice_success_eq tempDir sliceName wait axiosGet unzip fs0 a stream data
    hw hu hg hp]
  refine ⟨_, rfl, ?_, ?_⟩
  · apply dirs_mono_foldl
    rw [dirs_mkdirRecursive]
    left
    rw [mem_initsNE]
    exact ⟨by simp [cacheArea], List.prefix_refl _⟩
  · intro q hq
    rw [extractAll, foldl_extract_lookup]
    rw [reset_lookup_none fs0 (cacheArea tempDir ++ [sliceName]) hwf
      (by simp [cacheArea]) q hq]
    rw [archiveFiles]
    cases List.lookup q
        (writesOf (cacheArea tempDir ++ [sliceName])
          ((unzip data).filter (fun e => !e.isDirectory))).reverse <;>
      simp [Option.or]

/-- Witness for C3: a re-fetch of slice `s` over a filesystem holding a
stale `old.js` from an earlier fetch; afterwards no file is found at the
old path (the second archive holds only `index.js`). -/
theorem claim_C3_fresh_cache_witness :
    lookupFile
      (fetchSlice "/tmp" "s" (fun _ => some sampleActivation)
        (fun _ => Except.ok ⟨[StreamEvent.close], [1]⟩)
        (fun _ => [entryIndexJs]) fsWithOld).1
      ["/tmp", "slices", "s", "old.js"] = none := by
  obtain ⟨fs1, heq, _, hlook⟩ :=
    claim_C3_fresh_cache "/tmp" "s" (fun _ => some sampleActivation)
      (fun _ => Except.ok ⟨[StreamEvent.close], [1]⟩)
      (fun _ => [entryIndexJs]) fsWithOld sampleActivation
      ⟨[StreamEvent.close], [1]⟩ [1] rfl rfl rfl rfl (by decide)
  rw [heq]
  rw [hlook ["/tmp", "slices", "s", "old.js"] ⟨["old.js"], rfl⟩]
  decide

/-- C1: on a successful fetch, directory-flagged entries are skipped
entirely (they produce no file), and every non-directory entry is written at
the cache directory joined with its relative path, with missing parent
directories created recursively, and with mode `attr >>> 16` (the high 16
bits of the stored attribute).  The archive is assumed consistent: distinct
file entries have distinct names and no file entry's path is a proper
prefix of another's. -/
theorem claim_C1_extraction (tempDir sliceName : String)
    (wait : Nat → Option Activation) (axiosGet : String → Except String DownloadStream)
    (unzip : List Nat → List ZipEntry) (fs0 : FS) (a : Activation)
    (stream : DownloadStream) (data : List Nat)
    (hw : wait 60 = some a) (hu : usableActivation a = true)
    (hg : axiosGet ((downloadUrlOf a).getD "") = Except.ok stream)
    (hp : pipeResult stream = some data) (hwf : fs0.wf)
    (hnodup : (((unzip data).filter (fun e => !e.isDirectory)).map ZipEntry.entryName).Nodup)
    (hpf : ∀ e1 ∈ (unzip data).filter (fun e => !e.isDirectory),
           ∀ e2 ∈ (unzip data).filter (fun e => !e.isDirectory),
           e1.entryName <+: e2.entryName → e1.entryName = e2.entryName) :
    ∃ fs1 : FS,
      fetchSlice tempDir sliceName wait axiosGet unzip fs0
        = (fs1, Outcome.ok (cacheArea tempDir ++ [sliceName]))
      ∧ (∀ e ∈ unzip data, e.isDirectory = false →
          lookupFile fs1 (cacheArea tempDir ++ [sliceName] ++ e.entryName)
              = some ⟨e.data, jsShrU16 e.attr⟩
          ∧ (cacheArea tempDir ++ [sliceName] ++ e.entryName).dropLast ∈ fs1.dirs)
      ∧ (∀ e ∈ unzip data, e.isDirectory = true →
          (∀ e2 ∈ unzip data, e2.isDirectory = false → e2.entryName ≠ e.entryName) →
          lookupFile fs1 (cacheArea tempDir ++ [sliceName] ++ e.entryName) = none) := by
  rw [fetchSlice_success_eq tempDir sliceName wait axiosGet unzip fs0 a stream data
    hw hu hg hp]
  have hcne : (cacheArea tempDir ++ [sliceName] : Path) ≠ [] := by simp [cacheArea]
  have hreset : ∀ q : Path, (cacheArea tempDir ++ [sliceName]) <+: q →
      lookupFile (mkdirRecursive
        (if existsSync fs0 (cacheArea tempDir ++ [sliceName])
         then rimrafSync fs0 (cacheArea tempDir ++ [sliceName]) else fs0)
        (cacheArea tempDir ++ [sliceName])) q = none :=
    fun q hq => reset_lookup_none fs0 _ hwf hcne q hq
  refine ⟨_, rfl, ?_, ?_⟩
  · intro e he hd
    have hend : e ∈ (unzip data).filter (fun e => !e.isDirectory) := by
      rw [List.mem_filter]
      exact ⟨he, by simp [hd]⟩
    constructor
    · rw [extractAll, foldl_extract_lookup]
      have hmem : ((cacheArea tempDir ++ [sliceName]) ++ e.entryName,
          (⟨e.data, jsShrU16 e.attr⟩ : File)) ∈
          (writesOf (cacheArea tempDir ++ [sliceName])
            ((unzip data).filter (fun e => !e.isDirectory))).reverse := by
        rw [List.mem_reverse]
        exact List.mem_map_of_mem _ hend
      have hkeys : (writesOf (cacheArea tempDir ++ [sliceName])
            ((unzip data).filter (fun e => !e.isDirectory))).map Prod.fst
          = (((unzip data).filter (fun e => !e.isDirectory)).map ZipEntry.entryName).map
              (fun n => (cacheArea tempDir ++ [sliceName]) ++ n) := by
        rw [writesOf, List.map_map, List.map_map]
        rfl
      have hkeysnodup :
          ((writesOf (cacheArea tempDir ++ [sliceName])
            ((unzip data).filter (fun e => !e.isDirectory))).reverse.map Prod.fst).Nodup := by
        rw [List.map_reverse, List.nodup_reverse, hkeys]
        exact List.Nodup.map (fun x y hxy => List.append_cancel_left hxy) hnodup
      rw [lookup_of_nodup_mem _ _ _ hkeysnodup hmem]
      simp [Option.or]
    · rw [extractAll]
      apply extract_parents_aux (cacheArea tempDir ++ [sliceName])
        (((unzip data).filter (fun e => !e.isDirectory)).map ZipEntry.entryName)
        (by simp [cacheArea]) ?pfnames
        ((unzip data).filter (fun e => !e.isDirectory)) _ ?hnames ?hkeys ?hdirs e hend
      case pfnames =>
        intro n1 hn1 n2 hn2 hpre
        rw [List.mem_map] at hn1 hn2
        obtain ⟨e1, he1, rfl⟩ := hn1
        obtain ⟨e2, he2, rfl⟩ := hn2
        exact hpf e1 he1 e2 he2 hpre
      case hnames =>
        intro e2 h2
        exact List.mem_map_of_mem _ h2
      case hkeys =>
        intro q hq hsome
        exact absurd (hreset q hq) hsome
      case hdirs =>
        intro p hne hpp
        rw [dirs_mkdirRecursive]
        left
        exact (mem_initsNE _ p).mpr ⟨hne, hpp⟩
  · intro e he hd hnot
    rw [extractAll, foldl_extract_lookup]
    rw [hreset _ ⟨e.entryName, rfl⟩]
    have hnm : (cacheArea tempDir ++ [sliceName]) ++ e.entryName ∉
        ((writesOf (cacheArea tempDir ++ [sliceName])
          ((unzip data).filter (fun e => !e.isDirectory))).reverse.map Prod.fst) := by
      intro hmem
      rw [List.map_reverse, List.mem_reverse] at hmem
      rw [writesOf, List.map_map] at hmem
      rw [List.mem_map] at hmem
      obtain ⟨e2, he2, heq⟩ := hmem
      have heq2 : (cacheArea tempDir ++ [sliceName]) ++ e2.entryName
          = (cacheArea tempDir ++ [sliceName]) ++ e.entryName := heq
      have hname : e2.entryName = e.entryName := List.append_cancel_left heq2
      rw [List.mem_filter] at he2
      exact hnot e2 he2.1 (by simpa using he2.2) hname
    rw [lookup_none_of_not_mem _ _ hnm]
    simp [Option.or]

/-- Witness for C1: a fetch extracting a single Unix-created `index.js`
entry stores its bytes with mode `0o100644` at the joined path. -/
theorem claim_C1_extraction_witness :
    lookupFile
      (fetchSlice "/tmp" "s" (fun _ => some sampleActivation)
        (fun _ => Except.ok ⟨[StreamEvent.close], [1]⟩)
        (fun _ => [entryIndexJs]) ⟨[], []⟩).1
      ["/tmp", "slices", "s", "index.js"] = some ⟨[7], 33188⟩ := by
  obtain ⟨fs1, heq, hfiles, _⟩ :=
    claim_C1_extraction "/tmp" "s" (fun _ => some sampleActivation)
      (fun _ => Except.ok ⟨[StreamEvent.close], [1]⟩)
      (fun _ => [entryIndexJs]) ⟨[], []⟩ sampleActivation
      ⟨[StreamEvent.close], [1]⟩ [1] rfl rfl rfl rfl (by decide) (by decide)
      (by decide)
  rw [heq]
  exact ((hfiles entryIndexJs (by decide) rfl).1).trans (by decide)

end SliceReader
